import Mathlib

/-!
Shallow embedding of the code-execution service in src/main.go: the
workspace lifecycle, file staging (copyFile, copyDirectory), process
supervision (handleJavaScriptExecution, executeTypescript) and the HTTP
handler (codeExecHandler) that orchestrates them, together with proofs
about the claims of the specification.

Paths are abstracted as lists of components: filepath.Join appends
components and filepath.Rel strips the source prefix. Machine effects
(filesystem calls, process spawns, directory changes) are modelled as
explicit events or as transformations of an explicit filesystem value,
and fallible operations are driven by boolean oracles saying which calls
succeed.
-/

namespace Octree

/-- A filesystem path, abstracted as its list of components. -/
abbrev FsPath := List String

/-- A stored file: its byte contents and whether they have been flushed,
so that they are visible to a subsequently spawned process (the
destFile.Sync call in copyFile, src/main.go line 164, sets the flag). -/
structure FileEntry where
  content : String
  synced : Bool
  deriving DecidableEq, Repr

/-- The modelled filesystem: the set of existing directories and an
association list from path to file entry, where the first binding wins. -/
structure FS where
  dirs : List FsPath
  files : List (FsPath × FileEntry)
  deriving DecidableEq, Repr

/-- Lookup of a file by path, first binding wins. -/
def lookupFile : List (FsPath × FileEntry) → FsPath → Option FileEntry
  | [], _ => none
  | e :: rest, p => if e.1 = p then some e.2 else lookupFile rest p

/-- Read a file from the filesystem. -/
def FS.readFile (fs : FS) (p : FsPath) : Option FileEntry :=
  lookupFile fs.files p

/-- Write a file, shadowing any previous binding for the same path. -/
def FS.setFile (fs : FS) (p : FsPath) (fe : FileEntry) : FS :=
  FS.mk fs.dirs ((p, fe) :: fs.files)

/-- Create a directory, as os.MkdirAll does. -/
def FS.mkdirAll (fs : FS) (p : FsPath) : FS :=
  FS.mk (p :: fs.dirs) fs.files

theorem readFile_setFile_same (fs : FS) (p : FsPath) (fe : FileEntry) :
    (fs.setFile p fe).readFile p = some fe := by
  simp [FS.setFile, FS.readFile, lookupFile]

theorem readFile_setFile_ne (fs : FS) (p q : FsPath) (fe : FileEntry) (h : q ≠ p) :
    (fs.setFile p fe).readFile q = fs.readFile q := by
  simp only [FS.setFile, FS.readFile, lookupFile]
  rw [if_neg (Ne.symm h)]

theorem readFile_mkdirAll (fs : FS) (p q : FsPath) :
    (fs.mkdirAll p).readFile q = fs.readFile q := by
  simp [FS.mkdirAll, FS.readFile]

theorem dirs_setFile (fs : FS) (p : FsPath) (fe : FileEntry) :
    (fs.setFile p fe).dirs = fs.dirs := rfl

theorem dirs_mkdirAll (fs : FS) (p : FsPath) :
    (fs.mkdirAll p).dirs = p :: fs.dirs := rfl

/-- Success oracles for the fallible filesystem calls, one flag per path:
os.Open, os.Create, io.Copy, the Sync flush, and os.MkdirAll. -/
structure IOOracle where
  openOk : FsPath → Bool
  createOk : FsPath → Bool
  copyOk : FsPath → Bool
  syncOk : FsPath → Bool
  mkdirOk : FsPath → Bool

/-- The oracle on which every filesystem call succeeds. -/
def IOOracle.allOk : IOOracle :=
  ⟨fun _ => true, fun _ => true, fun _ => true, fun _ => true, fun _ => true⟩

/-- Errors of the file staging operations, one per fallible call site of
copyFile (src/main.go lines 146 to 165) and of the MkdirAll call inside
the walk callback of copyDirectory (line 137). -/
inductive FsError
  | openErr
  | createErr
  | copyErr
  | syncErr
  | mkdirErr
  deriving DecidableEq, Repr

/-- Embedding of copyFile (src/main.go lines 146 to 165): open the
source, create the destination, copy the bytes, then flush with Sync;
the first failing call has its error returned. The intermediate setFile
steps mirror that os.Create truncates the destination and io.Copy then
fills it, with the synced flag still false until Sync returns. -/
def copyFile (o : IOOracle) (fs : FS) (src dest : FsPath) : Except FsError FS :=
  if o.openOk src = false then .error .openErr
  else
    match fs.readFile src with
    | none => .error .openErr
    | some fe =>
      if o.createOk dest = false then .error .createErr
      else
        let fs1 := fs.setFile dest ⟨"", false⟩
        if o.copyOk dest = false then .error .copyErr
        else
          let fs2 := fs1.setFile dest ⟨fe.content, false⟩
          if o.syncOk dest = false then .error .syncErr
          else .ok (fs2.setFile dest ⟨fe.content, true⟩)

/-- One entry yielded by filepath.Walk over the source directory: its
path relative to the walk root, whether it is a directory, and its
contents when it is a file. -/
structure WalkEntry where
  rel : FsPath
  isDir : Bool
  content : String
  deriving DecidableEq, Repr

/-- Embedding of copyDirectory (src/main.go lines 123 to 143),
parameterized over the entry sequence that filepath.Walk yields for the
source directory: each directory entry becomes MkdirAll at the joined
destination path and each file entry becomes copyFile from the joined
source path to the joined destination path; the walk stops at the first
error and returns it. -/
def copyDirectory (o : IOOracle) (srcDir destDir : FsPath) :
    List WalkEntry → FS → Except FsError FS
  | [], fs => .ok fs
  | e :: rest, fs =>
    if e.isDir then
      if o.mkdirOk (destDir ++ e.rel) then
        copyDirectory o srcDir destDir rest (fs.mkdirAll (destDir ++ e.rel))
      else .error .mkdirErr
    else
      match copyFile o fs (srcDir ++ e.rel) (destDir ++ e.rel) with
      | .ok fs2 => copyDirectory o srcDir destDir rest fs2
      | .error err => .error err

theorem copyFile_success (o : IOOracle) (fs : FS) (src dest : FsPath) (fe : FileEntry)
    (hopen : o.openOk src = true) (hread : fs.readFile src = some fe)
    (hcreate : o.createOk dest = true) (hcopy : o.copyOk dest = true)
    (hsync : o.syncOk dest = true) :
    copyFile o fs src dest =
      .ok (((fs.setFile dest ⟨"", false⟩).setFile dest ⟨fe.content, false⟩).setFile
        dest ⟨fe.content, true⟩) := by
  simp [copyFile, hopen, hread, hcreate, hcopy, hsync]

theorem copyFile_openErr_missing (o : IOOracle) (fs : FS) (src dest : FsPath)
    (hread : fs.readFile src = none) :
    copyFile o fs src dest = .error .openErr := by
  by_cases h1 : o.openOk src = false <;> simp [copyFile, h1, hread]

theorem copyFile_openErr_denied (o : IOOracle) (fs : FS) (src dest : FsPath)
    (hopen : o.openOk src = false) :
    copyFile o fs src dest = .error .openErr := by
  simp [copyFile, hopen]

theorem copyFile_createErr (o : IOOracle) (fs : FS) (src dest : FsPath) (fe : FileEntry)
    (hopen : o.openOk src = true) (hread : fs.readFile src = some fe)
    (hcreate : o.createOk dest = false) :
    copyFile o fs src dest = .error .createErr := by
  simp [copyFile, hopen, hread, hcreate]

theorem copyFile_copyErr (o : IOOracle) (fs : FS) (src dest : FsPath) (fe : FileEntry)
    (hopen : o.openOk src = true) (hread : fs.readFile src = some fe)
    (hcreate : o.createOk dest = true) (hcopy : o.copyOk dest = false) :
    copyFile o fs src dest = .error .copyErr := by
  simp [copyFile, hopen, hread, hcreate, hcopy]

theorem copyFile_syncErr (o : IOOracle) (fs : FS) (src dest : FsPath) (fe : FileEntry)
    (hopen : o.openOk src = true) (hread : fs.readFile src = some fe)
    (hcreate : o.createOk dest = true) (hcopy : o.copyOk dest = true)
    (hsync : o.syncOk dest = false) :
    copyFile o fs src dest = .error .syncErr := by
  simp [copyFile, hopen, hread, hcreate, hcopy, hsync]

theorem copyFile_ok_elim (o : IOOracle) (fs fs2 : FS) (src dest : FsPath)
    (h : copyFile o fs src dest = .ok fs2) :
    o.openOk src = true ∧ o.createOk dest = true ∧ o.copyOk dest = true ∧
    o.syncOk dest = true ∧
    ∃ fe, fs.readFile src = some fe ∧
      fs2.dirs = fs.dirs ∧
      fs2.readFile dest = some ⟨fe.content, true⟩ ∧
      ∀ q, q ≠ dest → fs2.readFile q = fs.readFile q := by
  by_cases h1 : o.openOk src = false
  · simp [copyFile, h1] at h
  · simp only [Bool.not_eq_false] at h1
    cases hread : fs.readFile src with
    | none => simp [copyFile, h1, hread] at h
    | some fe =>
      by_cases h2 : o.createOk dest = false
      · simp [copyFile, h1, hread, h2] at h
      · simp only [Bool.not_eq_false] at h2
        by_cases h3 : o.copyOk dest = false
        · simp [copyFile, h1, hread, h2, h3] at h
        · simp only [Bool.not_eq_false] at h3
          by_cases h4 : o.syncOk dest = false
          · simp [copyFile, h1, hread, h2, h3, h4] at h
          · simp only [Bool.not_eq_false] at h4
            rw [copyFile_success o fs src dest fe h1 hread h2 h3 h4] at h
            cases h
            refine ⟨h1, h2, h3, h4, fe, ?_, ?_, ?_, ?_⟩
            · rfl
            · rfl
            · exact readFile_setFile_same _ _ _
            intro q hq
            rw [readFile_setFile_ne _ _ _ _ hq, readFile_setFile_ne _ _ _ _ hq,
              readFile_setFile_ne _ _ _ _ hq]

/-- Component-wise prefix test on paths: pathLe a b holds when the
directory a contains the path b (or equals it). -/
def pathLe : FsPath → FsPath → Bool
  | [], _ => true
  | _ :: _, [] => false
  | a :: as, b :: bs => a == b && pathLe as bs

theorem pathLe_append (x t : FsPath) : pathLe x (x ++ t) = true := by
  induction x with
  | nil => rfl
  | cons a as ih => simp [pathLe, ih]

theorem pathLe_exists (x p : FsPath) (h : pathLe x p = true) :
    ∃ t, p = x ++ t := by
  induction x generalizing p with
  | nil => exact ⟨p, rfl⟩
  | cons a as ih =>
    cases p with
    | nil => simp [pathLe] at h
    | cons b bs =>
      simp only [pathLe, Bool.and_eq_true, beq_iff_eq] at h
      obtain ⟨rfl, h2⟩ := h
      obtain ⟨t, rfl⟩ := ih bs h2
      exact ⟨t, rfl⟩

theorem append_eq_append_pathLe :
    ∀ x y a b : List String, x ++ a = y ++ b →
      pathLe x y = true ∨ pathLe y x = true := by
  intro x
  induction x with
  | nil => intro y a b _; left; rfl
  | cons c xs ih =>
    intro y a b h
    cases y with
    | nil => right; rfl
    | cons d ys =>
      simp only [List.cons_append, List.cons.injEq] at h
      obtain ⟨rfl, h2⟩ := h
      rcases ih ys a b h2 with h' | h'
      · left; simp [pathLe, h']
      · right; simp [pathLe, h']

theorem disjoint_src_dest (srcDir destDir : FsPath)
    (h1 : pathLe srcDir destDir = false)
    (h2 : pathLe destDir srcDir = false)
    (a b : FsPath) : destDir ++ a ≠ srcDir ++ b := by
  intro h
  rcases append_eq_append_pathLe destDir srcDir a b h with h' | h'
  · rw [h2] at h'; cases h'
  · rw [h1] at h'; cases h'

theorem copyDirectory_mono_dirs (o : IOOracle) (srcDir destDir : FsPath) :
    ∀ (entries : List WalkEntry) (fs fs2 : FS),
      copyDirectory o srcDir destDir entries fs = .ok fs2 →
      ∀ p, p ∈ fs.dirs → p ∈ fs2.dirs := by
  intro entries
  induction entries with
  | nil => intro fs fs2 h p hp; cases h; exact hp
  | cons e rest ih =>
    intro fs fs2 h p hp
    by_cases hd : e.isDir
    · rw [copyDirectory, if_pos hd] at h
      by_cases hmk : o.mkdirOk (destDir ++ e.rel) = true
      · rw [if_pos hmk] at h
        exact ih _ _ h p (List.mem_cons_of_mem _ hp)
      · rw [if_neg hmk] at h; cases h
    · rw [copyDirectory, if_neg hd] at h
      cases hcf : copyFile o fs (srcDir ++ e.rel) (destDir ++ e.rel) with
      | error err => rw [hcf] at h; cases h
      | ok fsB =>
        rw [hcf] at h
        obtain ⟨-, -, -, -, -, -, hdirs, -⟩ := copyFile_ok_elim _ _ _ _ _ hcf
        exact ih _ _ h p (hdirs ▸ hp)

theorem copyDirectory_preserves (o : IOOracle) (srcDir destDir : FsPath) :
    ∀ (entries : List WalkEntry) (fs fs2 : FS),
      copyDirectory o srcDir destDir entries fs = .ok fs2 →
      ∀ p, (∀ e ∈ entries, p ≠ destDir ++ e.rel) →
        fs2.readFile p = fs.readFile p ∧ (p ∈ fs2.dirs ↔ p ∈ fs.dirs) := by
  intro entries
  induction entries with
  | nil => intro fs fs2 h p _; cases h; exact ⟨rfl, Iff.rfl⟩
  | cons e rest ih =>
    intro fs fs2 h p hp
    have hpe : p ≠ destDir ++ e.rel := hp e (List.mem_cons_self e rest)
    have hprest : ∀ e2 ∈ rest, p ≠ destDir ++ e2.rel :=
      fun e2 h2 => hp e2 (List.mem_cons_of_mem _ h2)
    by_cases hd : e.isDir
    · rw [copyDirectory, if_pos hd] at h
      by_cases hmk : o.mkdirOk (destDir ++ e.rel) = true
      · rw [if_pos hmk] at h
        obtain ⟨hr, hdm⟩ := ih _ _ h p hprest
        refine ⟨hr.trans (readFile_mkdirAll _ _ _), hdm.trans ?_⟩
        rw [dirs_mkdirAll]
        simp [List.mem_cons, hpe]
      · rw [if_neg hmk] at h; cases h
    · rw [copyDirectory, if_neg hd] at h
      cases hcf : copyFile o fs (srcDir ++ e.rel) (destDir ++ e.rel) with
      | error err => rw [hcf] at h; cases h
      | ok fsB =>
        rw [hcf] at h
        obtain ⟨-, -, -, -, -, -, hdirs, -, hother⟩ := copyFile_ok_elim _ _ _ _ _ hcf
        obtain ⟨hr, hdm⟩ := ih _ _ h p hprest
        exact ⟨hr.trans (hother p hpe), hdm.trans (by rw [hdirs])⟩

theorem copyDirectory_main (o : IOOracle) (srcDir destDir : FsPath)
    (hdisj1 : pathLe srcDir destDir = false)
    (hdisj2 : pathLe destDir srcDir = false) :
    ∀ (entries : List WalkEntry) (fs : FS),
      (entries.map WalkEntry.rel).Nodup →
      (∀ e ∈ entries, e.isDir = false →
        (fs.readFile (srcDir ++ e.rel)).map FileEntry.content = some e.content ∧
        o.openOk (srcDir ++ e.rel) = true) →
      (∀ e ∈ entries,
        (e.isDir = true → o.mkdirOk (destDir ++ e.rel) = true) ∧
        (e.isDir = false → o.createOk (destDir ++ e.rel) = true ∧
          o.copyOk (destDir ++ e.rel) = true ∧ o.syncOk (destDir ++ e.rel) = true)) →
      ∃ fs2, copyDirectory o srcDir destDir entries fs = .ok fs2 ∧
        ∀ e ∈ entries,
          (e.isDir = true → (destDir ++ e.rel) ∈ fs2.dirs) ∧
          (e.isDir = false →
            fs2.readFile (destDir ++ e.rel) = some ⟨e.content, true⟩) := by
  intro entries
  induction entries with
  | nil =>
    intro fs _ _ _
    exact ⟨fs, rfl, by intro e he; cases he⟩
  | cons e rest ih =>
    intro fs hnodup hsrc horacle
    rw [List.map_cons, List.nodup_cons] at hnodup
    obtain ⟨hnotin, hnodup2⟩ := hnodup
    by_cases hd : e.isDir
    · have hmk : o.mkdirOk (destDir ++ e.rel) = true :=
        (horacle e (List.mem_cons_self e rest)).1 hd
      obtain ⟨fs2, hok, hmirror⟩ := ih (fs.mkdirAll (destDir ++ e.rel))
        hnodup2
        (by
          intro e2 he2 hf
          have := hsrc e2 (List.mem_cons_of_mem _ he2) hf
          rwa [readFile_mkdirAll])
        (fun e2 he2 => horacle e2 (List.mem_cons_of_mem _ he2))
      refine ⟨fs2, ?_, ?_⟩
      · rw [copyDirectory, if_pos hd, if_pos hmk]; exact hok
      · intro e2 he2
        rcases List.mem_cons.mp he2 with rfl | he2
        · refine ⟨fun _ => ?_, fun hf => by rw [hf] at hd; cases hd⟩
          exact copyDirectory_mono_dirs o srcDir destDir rest _ _ hok _
            (by rw [dirs_mkdirAll]; exact List.mem_cons_self _ _)
        · exact hmirror e2 he2
    · have hd2 : e.isDir = false := by simpa using hd
      obtain ⟨hmapc, hopen⟩ := hsrc e (List.mem_cons_self e rest) hd2
      obtain ⟨fe, hread, hfec⟩ := Option.map_eq_some'.mp hmapc
      obtain ⟨hcr, hcp, hsy⟩ := (horacle e (List.mem_cons_self e rest)).2 hd2
      have hcfok := copyFile_success o fs (srcDir ++ e.rel) (destDir ++ e.rel) fe
        hopen hread hcr hcp hsy
      have hne : ∀ b : FsPath, srcDir ++ b ≠ destDir ++ e.rel :=
        fun b => Ne.symm (disjoint_src_dest srcDir destDir hdisj1 hdisj2 e.rel b)
      obtain ⟨fs2, hok, hmirror⟩ := ih
        (((fs.setFile (destDir ++ e.rel) ⟨"", false⟩).setFile (destDir ++ e.rel)
          ⟨fe.content, false⟩).setFile (destDir ++ e.rel) ⟨fe.content, true⟩)
        hnodup2
        (by
          intro e2 he2 hf
          have h2 := hsrc e2 (List.mem_cons_of_mem _ he2) hf
          rwa [readFile_setFile_ne _ _ _ _ (hne e2.rel),
            readFile_setFile_ne _ _ _ _ (hne e2.rel),
            readFile_setFile_ne _ _ _ _ (hne e2.rel)])
        (fun e2 he2 => horacle e2 (List.mem_cons_of_mem _ he2))
      refine ⟨fs2, ?_, ?_⟩
      · rw [copyDirectory, if_neg hd, hcfok]; exact hok
      · intro e2 he2
        rcases List.mem_cons.mp he2 with rfl | he2
        · refine ⟨fun ht => (by rw [ht] at hd2; cases hd2), fun _ => ?_⟩
          have hpres := (copyDirectory_preserves o srcDir destDir rest _ _ hok
            (destDir ++ e2.rel) ?_).1
          · rw [hpres, readFile_setFile_same, hfec]
          · intro e3 he3 heq
            have : e2.rel = e3.rel := by
              have := congrArg (List.drop destDir.length) heq
              rwa [List.drop_left, List.drop_left] at this
            exact hnotin (this ▸ List.mem_map_of_mem WalkEntry.rel he3)
        · exact hmirror e2 he2

theorem copyDirectory_ok_elim (o : IOOracle) (srcDir destDir : FsPath)
    (hdisj1 : pathLe srcDir destDir = false)
    (hdisj2 : pathLe destDir srcDir = false) :
    ∀ (entries : List WalkEntry) (fs fs2 : FS),
      copyDirectory o srcDir destDir entries fs = .ok fs2 →
      ∀ e ∈ entries,
        (e.isDir = true → o.mkdirOk (destDir ++ e.rel) = true) ∧
        (e.isDir = false → (fs.readFile (srcDir ++ e.rel)).isSome = true ∧
          o.openOk (srcDir ++ e.rel) = true ∧ o.createOk (destDir ++ e.rel) = true ∧
          o.copyOk (destDir ++ e.rel) = true ∧ o.syncOk (destDir ++ e.rel) = true) := by
  intro entries
  induction entries with
  | nil => intro fs fs2 _ e he; cases he
  | cons e rest ih =>
    intro fs fs2 h e2 he2
    by_cases hd : e.isDir
    · rw [copyDirectory, if_pos hd] at h
      by_cases hmk : o.mkdirOk (destDir ++ e.rel) = true
      · rw [if_pos hmk] at h
        rcases List.mem_cons.mp he2 with rfl | he2
        · exact ⟨fun _ => hmk, fun hf => by rw [hf] at hd; cases hd⟩
        · have := ih _ _ h e2 he2
          rwa [readFile_mkdirAll] at this
      · rw [if_neg hmk] at h; cases h
    · rw [copyDirectory, if_neg hd] at h
      cases hcf : copyFile o fs (srcDir ++ e.rel) (destDir ++ e.rel) with
      | error err => rw [hcf] at h; cases h
      | ok fsB =>
        rw [hcf] at h
        obtain ⟨hopen, hcr, hcp, hsy, fe, hread, -, -, hother⟩ :=
          copyFile_ok_elim _ _ _ _ _ hcf
        rcases List.mem_cons.mp he2 with rfl | he2
        · refine ⟨fun ht => absurd ht hd, fun _ => ?_⟩
          exact ⟨by rw [hread]; rfl, hopen, hcr, hcp, hsy⟩
        · have hrec := ih _ _ h e2 he2
          have hne : srcDir ++ e2.rel ≠ destDir ++ e.rel :=
            Ne.symm (disjoint_src_dest srcDir destDir hdisj1 hdisj2 e.rel e2.rel)
          rwa [hother _ hne] at hrec

/-- Observable behaviour of a spawned child process: how many seconds it
would run before exiting on its own, its exit status, and the bytes it
writes to the two output streams while running. -/
structure ProcBehavior where
  duration : Nat
  exitCode : Nat
  stdout : String
  stderr : String
  deriving DecidableEq, Repr

/-- The timeout handed to context.WithTimeout in handleJavaScriptExecution
(src/main.go line 169): 60 seconds. -/
def jsTimeoutSeconds : Nat := 60

/-- The timeout handed to context.WithTimeout in executeTypescript
(src/main.go line 83): 30 seconds. -/
def tsTimeoutSeconds : Nat := 30

/-- Error returns of handleJavaScriptExecution, one constructor per
fmt.Errorf site (src/main.go lines 178 to 209). -/
inductive JsError
  | stdoutPipeFailed
  | stderrPipeFailed
  | startFailed
  | readStdoutFailed
  | readStderrFailed
  | timedOut
  | exitError
  deriving DecidableEq, Repr

/-- Constant part of the message each fmt.Errorf site of
handleJavaScriptExecution produces. -/
def jsErrorMessage : JsError → String
  | .stdoutPipeFailed => "error while obtaining stdout pipe"
  | .stderrPipeFailed => "error while obtaining stderr pipe"
  | .startFailed => "error while starting command"
  | .readStdoutFailed => "error while reading stdout"
  | .readStderrFailed => "error while reading stderr"
  | .timedOut => "command timed out after 10 seconds"
  | .exitError => "command execution error"

/-- Success oracle for the fallible library calls of
handleJavaScriptExecution surrounding the spawned process. -/
structure JsEnv where
  stdoutPipeOk : Bool
  stderrPipeOk : Bool
  startOk : Bool
  readStdoutOk : Bool
  readStderrOk : Bool
  deriving DecidableEq, Repr

/-- The environment in which every library call succeeds. -/
def JsEnv.allOk : JsEnv := ⟨true, true, true, true, true⟩

/-- Result of one supervised JavaScript run: output strings as returned
to the caller, the classified error if any, and whether the context
deadline forced the child to be killed. -/
structure JsOutcome where
  stdout : String
  stderr : String
  err : Option JsError
  childKilled : Bool
  deriving DecidableEq, Repr

/-- Embedding of handleJavaScriptExecution (src/main.go lines 167 to
213): a 60 second context deadline wraps exec.CommandContext, stdout and
stderr are read from pipes, and after cmd.Wait the deadline check comes
before the exit status check. Every error return of the source returns
empty output strings, including the non-zero exit return at line 209. -/
def handleJavaScriptExecution (env : JsEnv) (b : ProcBehavior) : JsOutcome :=
  if env.stdoutPipeOk = false then ⟨"", "", some .stdoutPipeFailed, false⟩
  else if env.stderrPipeOk = false then ⟨"", "", some .stderrPipeFailed, false⟩
  else if env.startOk = false then ⟨"", "", some .startFailed, false⟩
  else if env.readStdoutOk = false then ⟨"", "", some .readStdoutFailed, false⟩
  else if env.readStderrOk = false then ⟨"", "", some .readStderrFailed, false⟩
  else if jsTimeoutSeconds < b.duration then ⟨"", "", some .timedOut, true⟩
  else if b.exitCode = 0 then ⟨b.stdout, b.stderr, none, false⟩
  else ⟨"", "", some .exitError, false⟩

/-- The scratch root /mnt/persistent of the source. -/
def mntPersistent : FsPath := ["mnt", "persistent"]

/-- The TypeScript template project path /tmp/dummy-pkg-ts of the source. -/
def dummyPkgTs : FsPath := ["tmp", "dummy-pkg-ts"]

/-- Machine effects performed by executeTypescript, in order. The chdir
event is a mutation of the process-wide current working directory
(os.Chdir); the spawn event records the command, its argument and the
explicit per-call working-directory parameter of the spawn primitive
(exec.Cmd.Dir), which the source never sets. -/
inductive TsEvent
  | getwd
  | chdir (p : FsPath)
  | mkdir (p : FsPath)
  | copyDir (src dst : FsPath)
  | copyFileEvent (src dst : FsPath)
  | spawn (cmd : String) (arg : String) (explicitDir : Option FsPath)
  | waitChild
  | removeAll (p : FsPath)
  | logWarning
  deriving DecidableEq, Repr

/-- Error returns of executeTypescript, one constructor per fmt.Errorf
site (src/main.go lines 49 to 109). -/
inductive TsError
  | getwdFailed
  | chdirScratchFailed
  | mkdirFailed
  | copyTemplateFailed
  | chdirWorkspaceFailed
  | copyEntryFailed
  | startFailed
  | timedOut
  | runFailed
  | chdirBackFailed
  deriving DecidableEq, Repr

/-- Constant part of the message each fmt.Errorf site of
executeTypescript produces. -/
def tsErrorMessage : TsError → String
  | .getwdFailed => "failed to get current directory"
  | .chdirScratchFailed => "failed to change directory to /mnt/persistent"
  | .mkdirFailed => "failed to create folder"
  | .copyTemplateFailed => "failed to copy files"
  | .chdirWorkspaceFailed => "failed to change directory"
  | .copyEntryFailed => "failed to copy file"
  | .startFailed => "failed to start ts-node"
  | .timedOut => "execution timeout after 30 seconds"
  | .runFailed => "failed to run ts-node"
  | .chdirBackFailed => "failed to change back to original directory"

/-- Success oracle for the fallible calls of executeTypescript, one flag
per call site in source order. -/
structure TsEnv where
  getwdOk : Bool
  chdirScratchOk : Bool
  mkdirOk : Bool
  copyTemplateOk : Bool
  chdirWorkspaceOk : Bool
  copyEntryOk : Bool
  startOk : Bool
  chdirBackOk : Bool
  removeOk : Bool
  deriving DecidableEq, Repr

/-- The environment in which every call of executeTypescript succeeds. -/
def TsEnv.allOk : TsEnv := ⟨true, true, true, true, true, true, true, true, true⟩

/-- Result of one executeTypescript run: the machine effects performed,
the output strings returned, the classified error if any, and whether
the context deadline killed the child. -/
structure TsResult where
  events : List TsEvent
  stdout : String
  stderr : String
  err : Option TsError
  childKilled : Bool
  deriving DecidableEq, Repr

/-- Embedding of executeTypescript (src/main.go lines 42 to 120),
following the source step for step: save the current directory, chdir to
the scratch root, mkdir the uuid workspace, copy the template tree,
chdir into the workspace, copy the entry file, spawn ts-node with no
per-call directory parameter, wait under a 30 second deadline, and only
on the fully successful path chdir back, then remove the workspace; a
removal failure is logged and does not change the returned result. The
timeout return at line 100 and the chdir-back failure return at line
109 both return empty output; the non-zero exit return at line 103
keeps the captured output. -/
def executeTypescript (env : TsEnv) (b : ProcBehavior) (uuidFolder : String)
    (originalDir : FsPath) (filePath : FsPath) : TsResult :=
  let workDir := mntPersistent ++ [uuidFolder]
  let ev2 := [TsEvent.getwd, TsEvent.chdir mntPersistent]
  let ev3 := ev2 ++ [TsEvent.mkdir workDir]
  let ev4 := ev3 ++ [TsEvent.copyDir dummyPkgTs workDir]
  let ev5 := ev4 ++ [TsEvent.chdir workDir]
  let ev6 := ev5 ++ [TsEvent.copyFileEvent filePath (workDir ++ ["index.ts"])]
  let ev7 := ev6 ++ [TsEvent.spawn "ts-node" "index.ts" none]
  let ev8 := ev7 ++ [TsEvent.waitChild]
  if env.getwdOk = false then ⟨[TsEvent.getwd], "", "", some .getwdFailed, false⟩
  else if env.chdirScratchOk = false then ⟨ev2, "", "", some .chdirScratchFailed, false⟩
  else if env.mkdirOk = false then ⟨ev3, "", "", some .mkdirFailed, false⟩
  else if env.copyTemplateOk = false then ⟨ev4, "", "", some .copyTemplateFailed, false⟩
  else if env.chdirWorkspaceOk = false then ⟨ev5, "", "", some .chdirWorkspaceFailed, false⟩
  else if env.copyEntryOk = false then ⟨ev6, "", "", some .copyEntryFailed, false⟩
  else if env.startOk = false then ⟨ev7, "", "", some .startFailed, false⟩
  else if tsTimeoutSeconds < b.duration then ⟨ev8, "", "", some .timedOut, true⟩
  else if b.exitCode ≠ 0 then ⟨ev8, b.stdout, b.stderr, some .runFailed, false⟩
  else if env.chdirBackOk = false then
    ⟨ev8 ++ [TsEvent.chdir originalDir], "", "", some .chdirBackFailed, false⟩
  else if env.removeOk = false then
    ⟨ev8 ++ [TsEvent.chdir originalDir, TsEvent.removeAll workDir, TsEvent.logWarning],
      b.stdout, b.stderr, none, false⟩
  else
    ⟨ev8 ++ [TsEvent.chdir originalDir, TsEvent.removeAll workDir],
      b.stdout, b.stderr, none, false⟩

/-- A decoded request body, as in the CodeExecRequest struct of the
source. -/
structure CodeExecRequest where
  language : String
  code : String
  deriving DecidableEq, Repr

/-- The supported language list declared at the top of codeExecHandler
(src/main.go line 260). -/
def supportedLanguages : List String := ["javascript", "typescript"]

/-- Embedding of isLanguageSupported (src/main.go lines 334 to 342): a
linear scan returning true at the first match. -/
def isLanguageSupported (language : String) (supported : List String) : Bool :=
  match supported with
  | [] => false
  | lang :: rest => if lang = language then true else isLanguageSupported language rest

/-- Embedding of the LANGUAGE_EXTENSIONS map (src/main.go lines 24 to
27). -/
def LANGUAGE_EXTENSIONS (language : String) : Option String :=
  if language = "javascript" then some ".js"
  else if language = "typescript" then some ".ts"
  else none

/-- Machine effects performed directly by codeExecHandler: staging the
entry file with os.WriteFile, delegating to one of the language
executors, removing the staged file with os.Remove, and logging a
removal warning. -/
inductive HandlerEvent
  | writeFile (p : FsPath)
  | execJs
  | execTs
  | removeFile (p : FsPath)
  | logRemoveWarning
  deriving DecidableEq, Repr

/-- An HTTP response as the handler writes it: status code and body. -/
structure HttpResponse where
  status : Nat
  body : String
  deriving DecidableEq, Repr

/-- Result of one codeExecHandler invocation: the effects performed and
the response written. -/
structure HandlerOutcome where
  events : List HandlerEvent
  resp : HttpResponse
  deriving DecidableEq, Repr

/-- Wall-clock durations of the three phases that fall between the
start := time.Now() at src/main.go line 295 and the
time.Since(start) at line 328: the os.WriteFile staging of the entry
file (line 297), the language execution including all of the workspace
work of executeTypescript (lines 306 to 316), and the os.Remove of the
staged file (line 323). -/
structure PhaseDurations where
  write : Nat
  exec : Nat
  remove : Nat
  deriving DecidableEq, Repr

/-- Body of the 400 response for an unsupported language
(src/main.go line 287). -/
def notSupportedBody : String := "\x7b\"error\": \"Language not supported\"\x7d"

/-- Constant part of the body of the 500 response when os.WriteFile
fails (src/main.go line 299). -/
def writeFailedBody : String := "\x7b\"error\": \"Unable to write file\"\x7d"

/-- Body of the 500 response when an execution returns an error
(src/main.go line 319): only the error text, no captured output. -/
def executionErrorBody (msg : String) : String :=
  "\x7b\"error\": \"Execution error: " ++ msg ++ "\"\x7d"

/-- The success response body of codeExecHandler (src/main.go line 331),
built by direct string interpolation of the captured outputs and the
elapsed milliseconds into a JSON-shaped template, with no escaping. -/
def buildSuccessBody (stdout stderr execTime : String) : String :=
  "\x7b\"stdout\": \"" ++ stdout ++ "\", \"stderr\": \"" ++ stderr ++
    "\", \"execTime\": \"" ++ execTime ++ "\"\x7d"

/-- Embedding of codeExecHandler (src/main.go lines 259 to 332) from the
point where the request body has been decoded: reject unsupported
languages before any filesystem or process work, stage the entry file
under the scratch root, run the language executor, return a bare error
body on any execution error, otherwise remove the staged file (failure
only logged) and answer 200 with the interpolated success body whose
execTime field covers staging, execution and removal. -/
def codeExecHandler (req : CodeExecRequest) (writeOk removeOk : Bool)
    (jsEnv : JsEnv) (tsEnv : TsEnv) (b : ProcBehavior) (uuidStr : String)
    (originalDir : FsPath) (d : PhaseDurations) : HandlerOutcome :=
  if isLanguageSupported req.language supportedLanguages = false then
    ⟨[], ⟨400, notSupportedBody⟩⟩
  else
    let filePath := mntPersistent ++ [uuidStr ++ (LANGUAGE_EXTENSIONS req.language).getD ""]
    if writeOk = false then ⟨[.writeFile filePath], ⟨500, writeFailedBody⟩⟩
    else
      let elapsed := d.write + d.exec + d.remove
      if req.language = "javascript" then
        let r := handleJavaScriptExecution jsEnv b
        match r.err with
        | some e =>
          ⟨[.writeFile filePath, .execJs], ⟨500, executionErrorBody (jsErrorMessage e)⟩⟩
        | none =>
          if removeOk = false then
            ⟨[.writeFile filePath, .execJs, .removeFile filePath, .logRemoveWarning],
              ⟨200, buildSuccessBody r.stdout r.stderr (toString elapsed)⟩⟩
          else
            ⟨[.writeFile filePath, .execJs, .removeFile filePath],
              ⟨200, buildSuccessBody r.stdout r.stderr (toString elapsed)⟩⟩
      else
        let r := executeTypescript tsEnv b uuidStr originalDir filePath
        match r.err with
        | some e =>
          ⟨[.writeFile filePath, .execTs], ⟨500, executionErrorBody (tsErrorMessage e)⟩⟩
        | none =>
          if removeOk = false then
            ⟨[.writeFile filePath, .execTs, .removeFile filePath, .logRemoveWarning],
              ⟨200, buildSuccessBody r.stdout r.stderr (toString elapsed)⟩⟩
          else
            ⟨[.writeFile filePath, .execTs, .removeFile filePath],
              ⟨200, buildSuccessBody r.stdout r.stderr (toString elapsed)⟩⟩

/-- Numeric value of a digit list, most significant first. -/
def natOfDigits (l : List Char) : Nat :=
  l.foldl (fun acc c => acc * 10 + (c.toNat - 48)) 0

/-- First run of decimal digits in a character list, as a number. -/
def firstNatAux : List Char → Option Nat
  | [] => none
  | c :: cs =>
    if c.isDigit then some (natOfDigits (c :: cs.takeWhile Char.isDigit))
    else firstNatAux cs

/-- First number mentioned in a string: the figure a reader of an error
message would take away. -/
def firstNat (s : String) : Option Nat := firstNatAux s.data

/-- Decoded value of a JSON string escape character. -/
def escChar (e : Char) : Option Char :=
  if e = '"' then some '"'
  else if e = '\\' then some '\\'
  else if e = '/' then some '/'
  else if e = 'b' then some (Char.ofNat 8)
  else if e = 'f' then some (Char.ofNat 12)
  else if e = 'n' then some (Char.ofNat 10)
  else if e = 'r' then some (Char.ofNat 13)
  else if e = 't' then some (Char.ofNat 9)
  else none

/-- Worker for the JSON string-literal parser: the boolean says whether
the previous character was an unconsumed backslash. -/
def parseStringAux : Bool → List Char → Option (List Char × List Char)
  | _, [] => none
  | true, e :: cs =>
    match escChar e with
    | none => none
    | some d =>
      match parseStringAux false cs with
      | none => none
      | some (v, r) => some (d :: v, r)
  | false, c :: cs =>
    if c = '"' then some ([], cs)
    else if c = '\\' then parseStringAux true cs
    else if c.val < 32 then none
    else
      match parseStringAux false cs with
      | none => none
      | some (v, r) => some (c :: v, r)

/-- Parse the remainder of a JSON string literal, after its opening
quote: returns the decoded value and the input following the closing
quote. Raw control characters are invalid inside a JSON string. -/
def parseStringChars (input : List Char) : Option (List Char × List Char) :=
  parseStringAux false input

/-- A character that can stand unescaped inside a JSON string literal
and decodes to itself: not a double quote, not a backslash, not a
control character (the newline in particular is a control character). -/
def jsonCleanChar (c : Char) : Bool :=
  !(c = '"' || c = '\\' || decide (c.val < 32))

/-- A string free of JSON-special characters. -/
def jsonClean (s : String) : Bool := s.data.all jsonCleanChar

/-- Consume an expected literal character sequence from the input. -/
def expectChars : List Char → List Char → Option (List Char)
  | [], input => some input
  | c :: lit, input =>
    match input with
    | [] => none
    | d :: rest => if d = c then expectChars lit rest else none

/-- Parse a response body against the exact JSON object shape the
success template of codeExecHandler is meant to produce: an object with
string fields stdout, stderr and execTime in that order, the template
punctuation in between, and nothing after the closing brace. Returns the
three decoded field values when the body is a valid such encoding. -/
def parseBody (body : String) : Option (String × String × String) :=
  (expectChars ("\x7b\"stdout\": \"").data body.data).bind (fun r0 =>
  (parseStringChars r0).bind (fun p1 =>
  (expectChars (", \"stderr\": \"").data p1.2).bind (fun r2 =>
  (parseStringChars r2).bind (fun p2 =>
  (expectChars (", \"execTime\": \"").data p2.2).bind (fun r4 =>
  (parseStringChars r4).bind (fun p3 =>
  if p3.2 = ['\x7d'] then some (⟨p1.1⟩, ⟨p2.1⟩, ⟨p3.1⟩) else none))))))

theorem parseStringChars_quote (cs : List Char) :
    parseStringChars ('"' :: cs) = some ([], cs) := rfl

theorem parseStringChars_esc (e : Char) (cs : List Char) :
    parseStringChars ('\\' :: e :: cs) =
      match escChar e with
      | none => none
      | some d =>
        match parseStringChars cs with
        | none => none
        | some (v, r) => some (d :: v, r) := rfl

theorem parseStringChars_other (c : Char) (cs : List Char)
    (h1 : ¬ c = '"') (h2 : ¬ c = '\\') (h3 : ¬ c.val < 32) :
    parseStringChars (c :: cs) =
      match parseStringChars cs with
      | none => none
      | some (v, r) => some (c :: v, r) := by
  rw [parseStringChars, parseStringAux]
  rw [if_neg h1, if_neg h2, if_neg h3]
  rfl

theorem parseStringChars_ctrl (c : Char) (cs : List Char)
    (h1 : ¬ c = '"') (h2 : ¬ c = '\\') (h3 : c.val < 32) :
    parseStringChars (c :: cs) = none := by
  rw [parseStringChars, parseStringAux]
  rw [if_neg h1, if_neg h2, if_pos h3]

theorem jsonCleanChar_spec (c : Char) (h : jsonCleanChar c = true) :
    ¬ c = '"' ∧ ¬ c = '\\' ∧ ¬ c.val < 32 := by
  simp only [jsonCleanChar, Bool.not_eq_true', Bool.or_eq_false_iff,
    decide_eq_false_iff_not] at h
  exact ⟨h.1.1, h.1.2, h.2⟩

theorem parseStringChars_clean (s : List Char) (rest : List Char)
    (h : s.all jsonCleanChar = true) :
    parseStringChars (s ++ '"' :: rest) = some (s, rest) := by
  induction s with
  | nil => rw [List.nil_append]; exact parseStringChars_quote rest
  | cons c cs ih =>
    rw [List.all_cons, Bool.and_eq_true] at h
    obtain ⟨hc, hcs⟩ := h
    obtain ⟨h1, h2, h3⟩ := jsonCleanChar_spec c hc
    rw [List.cons_append, parseStringChars_other c _ h1 h2 h3, ih hcs]

theorem parse_template_aux :
    ∀ (n : Nat) (s : List Char), s.length ≤ n → ∀ rest v r : List Char,
      parseStringChars (s ++ '"' :: ',' :: ' ' :: '"' :: rest) = some (v, r) →
      (s.all jsonCleanChar = true ∧ v = s ∧ r = ',' :: ' ' :: '"' :: rest)
      ∨ v.length < s.length
      ∨ ((∃ u, s = u ++ ['\\']) ∧ ∃ w, v = w ++ [' ']) := by
  intro n
  induction n with
  | zero =>
    intro s hs rest v r h
    have hn : s = [] := List.length_eq_zero.mp (Nat.le_zero.mp hs)
    subst hn
    rw [List.nil_append, parseStringChars_quote] at h
    cases h
    exact Or.inl ⟨rfl, rfl, rfl⟩
  | succ n ih =>
    intro s hs rest v r h
    cases s with
    | nil =>
      rw [List.nil_append, parseStringChars_quote] at h
      cases h
      exact Or.inl ⟨rfl, rfl, rfl⟩
    | cons c s1 =>
      by_cases hc : c = '"'
      · subst hc
        rw [List.cons_append, parseStringChars_quote] at h
        cases h
        exact Or.inr (Or.inl (by simp))
      · by_cases hb : c = '\\'
        · subst hb
          cases s1 with
          | nil =>
            rw [List.cons_append, List.nil_append, parseStringChars_esc] at h
            have hcomma : parseStringChars (',' :: ' ' :: '"' :: rest) =
                some ([',', ' '], rest) := by
              rw [parseStringChars_other ',' _ (by decide) (by decide) (by decide)]
              rw [parseStringChars_other ' ' _ (by decide) (by decide) (by decide)]
              rw [parseStringChars_quote]
            rw [show escChar '"' = some '"' from rfl, hcomma] at h
            cases h
            refine Or.inr (Or.inr ⟨⟨[], rfl⟩, ⟨['"', ','], rfl⟩⟩)
          | cons e s2 =>
            rw [List.cons_append, List.cons_append, parseStringChars_esc] at h
            cases he : escChar e with
            | none => rw [he] at h; cases h
            | some d =>
              rw [he] at h
              cases hrec : parseStringChars (s2 ++ '"' :: ',' :: ' ' :: '"' :: rest) with
              | none => rw [hrec] at h; cases h
              | some pr =>
                obtain ⟨v2, r2⟩ := pr
                rw [hrec] at h
                simp only [Option.some.injEq, Prod.mk.injEq] at h
                obtain ⟨hv, hr⟩ := h
                subst hv
                subst hr
                have hs2 : s2.length ≤ n := by
                  simp only [List.length_cons] at hs; omega
                rcases ih s2 hs2 rest v2 r2 hrec with ⟨-, hveq, -⟩ | hlen | ⟨⟨u, hu⟩, w, hw⟩
                · refine Or.inr (Or.inl ?_)
                  subst hveq
                  simp only [List.length_cons]
                  omega
                · refine Or.inr (Or.inl ?_)
                  simp only [List.length_cons]
                  omega
                · exact Or.inr (Or.inr ⟨⟨'\\' :: e :: u, by simp [hu]⟩, d :: w, by simp [hw]⟩)
        · by_cases hv32 : c.val < 32
          · rw [List.cons_append, parseStringChars_ctrl c _ hc hb hv32] at h
            cases h
          · rw [List.cons_append, parseStringChars_other c _ hc hb hv32] at h
            cases hrec : parseStringChars (s1 ++ '"' :: ',' :: ' ' :: '"' :: rest) with
            | none => rw [hrec] at h; cases h
            | some pr =>
              obtain ⟨v1, r1⟩ := pr
              rw [hrec] at h
              simp only [Option.some.injEq, Prod.mk.injEq] at h
              obtain ⟨hv, hr⟩ := h
              subst hv
              subst hr
              have hs1 : s1.length ≤ n := by
                simp only [List.length_cons] at hs; omega
              rcases ih s1 hs1 rest v1 r1 hrec with ⟨hclean, hveq, hreq⟩ | hlen | ⟨⟨u, hu⟩, w, hw⟩
              · refine Or.inl ⟨?_, ?_, hreq⟩
                · rw [List.all_cons, Bool.and_eq_true]
                  refine ⟨?_, hclean⟩
                  simp [jsonCleanChar, hc, hb, hv32]
                · rw [hveq]
              · refine Or.inr (Or.inl ?_)
                simp only [List.length_cons]
                omega
              · exact Or.inr (Or.inr ⟨⟨c :: u, by simp [hu]⟩, c :: w, by simp [hw]⟩)

theorem parse_template (s rest v r : List Char)
    (h : parseStringChars (s ++ '"' :: ',' :: ' ' :: '"' :: rest) = some (v, r)) :
    (s.all jsonCleanChar = true ∧ v = s ∧ r = ',' :: ' ' :: '"' :: rest)
    ∨ v.length < s.length
    ∨ ((∃ u, s = u ++ ['\\']) ∧ ∃ w, v = w ++ [' ']) :=
  parse_template_aux s.length s le_rfl rest v r h

theorem region_necessity (s rest r : List Char)
    (h : parseStringChars (s ++ '"' :: ',' :: ' ' :: '"' :: rest) = some (s, r)) :
    s.all jsonCleanChar = true ∧ r = ',' :: ' ' :: '"' :: rest := by
  rcases parse_template s rest s r h with ⟨h1, -, h3⟩ | hlen | ⟨⟨u, hu⟩, w, hw⟩
  · exact ⟨h1, h3⟩
  · omega
  · rw [hu] at hw
    have hrev := congrArg List.reverse hw
    simp only [List.reverse_append, List.reverse_cons, List.reverse_nil,
      List.nil_append, List.cons_append, List.cons.injEq] at hrev
    cases hrev.1

theorem expectChars_append (lit x : List Char) :
    expectChars lit (lit ++ x) = some x := by
  induction lit with
  | nil => rfl
  | cons c cs ih => simp [expectChars, ih]

theorem digit_clean_char (c : Char) (h : c.isDigit = true) : jsonCleanChar c = true := by
  simp only [Char.isDigit, Bool.and_eq_true, decide_eq_true_eq] at h
  obtain ⟨h1, h2⟩ := h
  have h1n : 48 ≤ c.toNat := UInt32.le_def.mp h1
  have h2n : c.toNat ≤ 57 := UInt32.le_def.mp h2
  have hq : ¬ c = '"' := by intro he; subst he; exact absurd h1n (by decide)
  have hb : ¬ c = '\\' := by intro he; subst he; exact absurd h2n (by decide)
  have hv : ¬ c.val < 32 := by
    rw [UInt32.lt_def]
    show ¬ c.toNat < 32
    omega
  simp [jsonCleanChar, hq, hb, hv]

theorem digits_clean (l : List Char) (h : l.all Char.isDigit = true) :
    l.all jsonCleanChar = true := by
  induction l with
  | nil => rfl
  | cons c cs ih =>
    rw [List.all_cons, Bool.and_eq_true] at h
    rw [List.all_cons, Bool.and_eq_true]
    exact ⟨digit_clean_char c h.1, ih h.2⟩

theorem buildSuccessBody_data (so se t : String) :
    (buildSuccessBody so se t).data =
      ("\x7b\"stdout\": \"" : String).data ++
        (so.data ++ '"' :: ',' :: ' ' :: '"' ::
          (("stderr\": \"" : String).data ++
            (se.data ++ '"' :: ',' :: ' ' :: '"' ::
              (("execTime\": \"" : String).data ++
                (t.data ++ '"' :: '\x7d' :: []))))) := by
  have e1 : ("\", \"stderr\": \"" : String).data
      = '"' :: ',' :: ' ' :: '"' :: ("stderr\": \"" : String).data := rfl
  have e2 : ("\", \"execTime\": \"" : String).data
      = '"' :: ',' :: ' ' :: '"' :: ("execTime\": \"" : String).data := rfl
  have e3 : ("\"\x7d" : String).data = '"' :: '\x7d' :: [] := rfl
  simp only [buildSuccessBody, String.data_append, e1, e2, e3, List.cons_append,
    List.append_assoc, List.nil_append]

theorem stderrLit_data :
    (", \"stderr\": \"" : String).data
      = ',' :: ' ' :: '"' :: ("stderr\": \"" : String).data := rfl

theorem execTimeLit_data :
    (", \"execTime\": \"" : String).data
      = ',' :: ' ' :: '"' :: ("execTime\": \"" : String).data := rfl

theorem interpBody_valid_implies_clean (so se t : String)
    (h : parseBody (buildSuccessBody so se t) = some (so, se, t)) :
    jsonClean so = true ∧ jsonClean se = true := by
  simp only [parseBody, Option.bind_eq_some] at h
  obtain ⟨r0, h0, p1, h1, r2, h2, p2, h3, r4, h4, p3, h5, hfin⟩ := h
  by_cases hr5 : p3.2 = ['\x7d']
  · rw [if_pos hr5] at hfin
    injection hfin with hfin2
    have hs1 : (⟨p1.1⟩ : String) = so := congrArg Prod.fst hfin2
    have hs2 : (⟨p2.1⟩ : String) = se :=
      congrArg Prod.fst (congrArg Prod.snd hfin2)
    have hv1 : p1.1 = so.data := by rw [← hs1]
    have hv2 : p2.1 = se.data := by rw [← hs2]
    rw [buildSuccessBody_data, expectChars_append] at h0
    injection h0 with h0
    subst h0
    have h1b : parseStringChars (so.data ++ '"' :: ',' :: ' ' :: '"' ::
        (("stderr\": \"" : String).data ++
          (se.data ++ '"' :: ',' :: ' ' :: '"' ::
            (("execTime\": \"" : String).data ++
              (t.data ++ '"' :: '\x7d' :: []))))) = some (p1.1, p1.2) := h1
    rw [hv1] at h1b
    obtain ⟨hcso, hp12⟩ := region_necessity _ _ _ h1b
    have hlit : ([',', ' ', '"', 's', 't', 'd', 'e', 'r', 'r', '"', ':', ' ', '"'] : List Char)
        = ',' :: ' ' :: '"' :: ("stderr\": \"" : String).data := rfl
    rw [hp12, hlit] at h2
    have hsplit : (',' :: ' ' :: '"' ::
        (("stderr\": \"" : String).data ++
          (se.data ++ '"' :: ',' :: ' ' :: '"' ::
            (("execTime\": \"" : String).data ++
              (t.data ++ '"' :: '\x7d' :: []))))) =
        (',' :: ' ' :: '"' :: ("stderr\": \"" : String).data) ++
          (se.data ++ '"' :: ',' :: ' ' :: '"' ::
            (("execTime\": \"" : String).data ++
              (t.data ++ '"' :: '\x7d' :: []))) := by simp
    rw [hsplit, expectChars_append] at h2
    injection h2 with h2
    subst h2
    have h3b : parseStringChars (se.data ++ '"' :: ',' :: ' ' :: '"' ::
        (("execTime\": \"" : String).data ++
          (t.data ++ '"' :: '\x7d' :: []))) = some (p2.1, p2.2) := h3
    rw [hv2] at h3b
    obtain ⟨hcse, -⟩ := region_necessity _ _ _ h3b
    exact ⟨hcso, hcse⟩
  · rw [if_neg hr5] at hfin
    cases hfin

theorem interpBody_clean_valid (so se t : String) (ht : t.data.all Char.isDigit = true)
    (hso : jsonClean so = true) (hse : jsonClean se = true) :
    parseBody (buildSuccessBody so se t) = some (so, se, t) := by
  have hso' : so.data.all jsonCleanChar = true := hso
  have hse' : se.data.all jsonCleanChar = true := hse
  have htc : t.data.all jsonCleanChar = true := digits_clean _ ht
  simp only [parseBody]
  rw [buildSuccessBody_data, expectChars_append]
  simp only [Option.some_bind]
  rw [parseStringChars_clean _ _ hso']
  simp only [Option.some_bind]
  have hsplit : (',' :: ' ' :: '"' ::
      (("stderr\": \"" : String).data ++
        (se.data ++ '"' :: ',' :: ' ' :: '"' ::
          (("execTime\": \"" : String).data ++
            (t.data ++ '"' :: '\x7d' :: []))))) =
      ([',', ' ', '"', 's', 't', 'd', 'e', 'r', 'r', '"', ':', ' ', '"'] : List Char) ++
        (se.data ++ '"' :: ',' :: ' ' :: '"' ::
          (("execTime\": \"" : String).data ++
            (t.data ++ '"' :: '\x7d' :: []))) := rfl
  rw [hsplit, expectChars_append]
  simp only [Option.some_bind]
  rw [parseStringChars_clean _ _ hse']
  simp only [Option.some_bind]
  have hsplit2 : (',' :: ' ' :: '"' ::
      (("execTime\": \"" : String).data ++
        (t.data ++ '"' :: '\x7d' :: []))) =
      ([',', ' ', '"', 'e', 'x', 'e', 'c', 'T', 'i', 'm', 'e', '"', ':', ' ', '"'] : List Char) ++
        (t.data ++ '"' :: '\x7d' :: []) := rfl
  rw [hsplit2, expectChars_append]
  simp only [Option.some_bind]
  rw [parseStringChars_clean _ _ htc]
  simp only [Option.some_bind]
  simp only [if_true]

/-- C9: the success response body that codeExecHandler builds by direct
string interpolation is not a valid JSON encoding of the captured
outputs whenever they contain a JSON-special character: concretely, for
a stdout consisting of one double quote the body fails to parse at all;
and in general, for a digit-only execTime figure, the body is a valid
JSON encoding of exactly the interpolated outputs precisely when both
outputs are free of double quotes, backslashes and control characters
(newlines included). -/
theorem c9_interpolated_body_not_json :
    (jsonClean "\"" = false ∧ parseBody (buildSuccessBody "\"" "" "0") = none) ∧
    ∀ so se t : String, t.data.all Char.isDigit = true →
      (parseBody (buildSuccessBody so se t) = some (so, se, t) ↔
        jsonClean so = true ∧ jsonClean se = true) := by
  refine ⟨⟨by decide, by decide⟩, ?_⟩
  intro so se t ht
  exact ⟨fun h => interpBody_valid_implies_clean so se t h,
    fun hh => interpBody_clean_valid so se t ht hh.1 hh.2⟩

/-- Witness for C9 at concrete inputs: clean outputs with a digit
execTime roundtrip through the parser. -/
theorem c9_interpolated_body_not_json_witness :
    ("12" : String).data.all Char.isDigit = true ∧
    parseBody (buildSuccessBody "ok" "" "12") = some ("ok", "", "12") :=
  ⟨by decide,
    (c9_interpolated_body_not_json.2 "ok" "" "12" (by decide)).mpr ⟨by decide, by decide⟩⟩

/-- C7: when the source file is readable and the destination creatable,
copyFile returns success only with the destination holding exactly the
source bytes and those bytes flushed (the synced flag a subsequently
spawned process observes), touching nothing else; and each open, create,
copy or sync failure returns that error. -/
theorem c7_copyFile_flush (o : IOOracle) (fs : FS) (src dest : FsPath) :
    (fs.readFile src = none → copyFile o fs src dest = .error .openErr) ∧
    (o.openOk src = false → copyFile o fs src dest = .error .openErr) ∧
    ∀ fe, fs.readFile src = some fe → o.openOk src = true →
      ((o.createOk dest = false → copyFile o fs src dest = .error .createErr) ∧
       (o.createOk dest = true → o.copyOk dest = false →
         copyFile o fs src dest = .error .copyErr) ∧
       (o.createOk dest = true → o.copyOk dest = true → o.syncOk dest = false →
         copyFile o fs src dest = .error .syncErr) ∧
       (o.createOk dest = true → o.copyOk dest = true → o.syncOk dest = true →
         ∃ fs2, copyFile o fs src dest = .ok fs2 ∧
           fs2.readFile dest = some ⟨fe.content, true⟩ ∧
           fs2.dirs = fs.dirs ∧
           ∀ q, q ≠ dest → fs2.readFile q = fs.readFile q)) := by
  refine ⟨copyFile_openErr_missing o fs src dest,
    copyFile_openErr_denied o fs src dest, ?_⟩
  intro fe hread hopen
  refine ⟨copyFile_createErr o fs src dest fe hopen hread,
    fun hc => copyFile_copyErr o fs src dest fe hopen hread hc,
    fun hc hcp => copyFile_syncErr o fs src dest fe hopen hread hc hcp,
    fun hc hcp hs => ?_⟩
  refine ⟨_, copyFile_success o fs src dest fe hopen hread hc hcp hs,
    readFile_setFile_same _ _ _, rfl, ?_⟩
  intro q hq
  rw [readFile_setFile_ne _ _ _ _ hq, readFile_setFile_ne _ _ _ _ hq,
    readFile_setFile_ne _ _ _ _ hq]

/-- A one-file filesystem used to instantiate staging theorems. -/
def fs0 : FS := ⟨[], [(["tmp", "a"], ⟨"hello", true⟩)]⟩

/-- Witness for C7 at a concrete filesystem. -/
theorem c7_copyFile_flush_witness :
    ∃ fs2, copyFile IOOracle.allOk fs0 ["tmp", "a"] ["mnt", "b"] = .ok fs2 ∧
      fs2.readFile ["mnt", "b"] = some ⟨"hello", true⟩ ∧
      fs2.dirs = fs0.dirs ∧
      ∀ q, q ≠ ["mnt", "b"] → fs2.readFile q = fs0.readFile q :=
  ((c7_copyFile_flush IOOracle.allOk fs0 ["tmp", "a"] ["mnt", "b"]).2.2 ⟨"hello", true⟩
    rfl rfl).2.2.2 rfl rfl rfl

/-- C8: for a walk enumeration of a readable source tree, with the
destination directory disjoint from the source, copyDirectory succeeds
exactly when every entry can be mirrored (directories creatable, file
sources readable and their create, copy and sync calls succeeding); on
success every directory appears under the destination at the same
relative path, every file appears with contents equal to the source
file, and no path under the source tree is modified. -/
theorem c8_copyDirectory_mirror (o : IOOracle) (srcDir destDir : FsPath)
    (entries : List WalkEntry) (fs : FS)
    (hdisj1 : pathLe srcDir destDir = false)
    (hdisj2 : pathLe destDir srcDir = false)
    (hnodup : (entries.map WalkEntry.rel).Nodup) :
    ((∀ e ∈ entries, e.isDir = false →
        (fs.readFile (srcDir ++ e.rel)).map FileEntry.content = some e.content ∧
        o.openOk (srcDir ++ e.rel) = true) →
      (∀ e ∈ entries,
        (e.isDir = true → o.mkdirOk (destDir ++ e.rel) = true) ∧
        (e.isDir = false → o.createOk (destDir ++ e.rel) = true ∧
          o.copyOk (destDir ++ e.rel) = true ∧ o.syncOk (destDir ++ e.rel) = true)) →
      ∃ fs2, copyDirectory o srcDir destDir entries fs = .ok fs2 ∧
        (∀ e ∈ entries,
          (e.isDir = true → (destDir ++ e.rel) ∈ fs2.dirs) ∧
          (e.isDir = false →
            fs2.readFile (destDir ++ e.rel) = some ⟨e.content, true⟩)) ∧
        ∀ p, pathLe srcDir p = true →
          fs2.readFile p = fs.readFile p ∧ (p ∈ fs2.dirs ↔ p ∈ fs.dirs)) ∧
    (∀ fs2, copyDirectory o srcDir destDir entries fs = .ok fs2 →
      ∀ e ∈ entries,
        (e.isDir = true → o.mkdirOk (destDir ++ e.rel) = true) ∧
        (e.isDir = false → (fs.readFile (srcDir ++ e.rel)).isSome = true ∧
          o.openOk (srcDir ++ e.rel) = true ∧ o.createOk (destDir ++ e.rel) = true ∧
          o.copyOk (destDir ++ e.rel) = true ∧ o.syncOk (destDir ++ e.rel) = true)) := by
  constructor
  · intro hsrc horacle
    obtain ⟨fs2, hok, hmirror⟩ := copyDirectory_main o srcDir destDir hdisj1 hdisj2
      entries fs hnodup hsrc horacle
    refine ⟨fs2, hok, hmirror, ?_⟩
    intro p hp
    obtain ⟨x, rfl⟩ := pathLe_exists srcDir p hp
    apply copyDirectory_preserves o srcDir destDir entries fs fs2 hok
    intro e _
    exact Ne.symm (disjoint_src_dest srcDir destDir hdisj1 hdisj2 e.rel x)
  · intro fs2 hok
    exact copyDirectory_ok_elim o srcDir destDir hdisj1 hdisj2 entries fs fs2 hok

/-- A concrete template tree on disk: the root directory, one
subdirectory, and one file. -/
def tmplFS : FS :=
  ⟨[["tmp", "dummy-pkg-ts"], ["tmp", "dummy-pkg-ts", "pkg"]],
    [(["tmp", "dummy-pkg-ts", "index.js"], ⟨"lib", true⟩)]⟩

/-- The walk enumeration of tmplFS rooted at the template directory. -/
def tmplEntries : List WalkEntry :=
  [⟨[], true, ""⟩, ⟨["pkg"], true, ""⟩, ⟨["index.js"], false, "lib"⟩]

/-- Witness for C8 at a concrete template tree. -/
theorem c8_copyDirectory_mirror_witness :
    ∃ fs2, copyDirectory IOOracle.allOk ["tmp", "dummy-pkg-ts"]
        ["mnt", "persistent", "u"] tmplEntries tmplFS = .ok fs2 ∧
      (∀ e ∈ tmplEntries,
        (e.isDir = true → (["mnt", "persistent", "u"] ++ e.rel) ∈ fs2.dirs) ∧
        (e.isDir = false →
          fs2.readFile (["mnt", "persistent", "u"] ++ e.rel) = some ⟨e.content, true⟩)) ∧
      ∀ p, pathLe ["tmp", "dummy-pkg-ts"] p = true →
        fs2.readFile p = tmplFS.readFile p ∧ (p ∈ fs2.dirs ↔ p ∈ tmplFS.dirs) :=
  (c8_copyDirectory_mirror IOOracle.allOk ["tmp", "dummy-pkg-ts"]
    ["mnt", "persistent", "u"] tmplEntries tmplFS (by decide) (by decide)
    (by decide)).1 (by decide) (by decide)

/-- C1 (evaluating the code at the failing input): for any TypeScript
execution that reaches the spawn, executeTypescript mutates the
process-wide current working directory twice (os.Chdir to the scratch
root, then into the workspace) and the ts-node spawn event carries no
per-call working-directory parameter, contradicting the claim that the
working directory is established solely as a per-call spawn parameter
and never by global mutation. -/
theorem c1_global_chdir_mutation (b : ProcBehavior) (u : String) (orig fp : FsPath)
    (hdur : b.duration ≤ tsTimeoutSeconds) (hexit : b.exitCode = 0) :
    TsEvent.chdir mntPersistent ∈ (executeTypescript TsEnv.allOk b u orig fp).events ∧
    TsEvent.chdir (mntPersistent ++ [u]) ∈ (executeTypescript TsEnv.allOk b u orig fp).events ∧
    TsEvent.spawn "ts-node" "index.ts" none ∈ (executeTypescript TsEnv.allOk b u orig fp).events ∧
    (executeTypescript TsEnv.allOk b u orig fp).err = none := by
  have h1 : ¬ (tsTimeoutSeconds < b.duration) := Nat.not_lt.mpr hdur
  simp [executeTypescript, TsEnv.allOk, h1, hexit]

/-- Witness for C1 at a concrete execution. -/
theorem c1_global_chdir_mutation_witness :
    TsEvent.chdir mntPersistent ∈
      (executeTypescript TsEnv.allOk ⟨1, 0, "ok", ""⟩ "u" ["root"]
        ["mnt", "persistent", "u.ts"]).events ∧
    TsEvent.chdir (mntPersistent ++ ["u"]) ∈
      (executeTypescript TsEnv.allOk ⟨1, 0, "ok", ""⟩ "u" ["root"]
        ["mnt", "persistent", "u.ts"]).events ∧
    TsEvent.spawn "ts-node" "index.ts" none ∈
      (executeTypescript TsEnv.allOk ⟨1, 0, "ok", ""⟩ "u" ["root"]
        ["mnt", "persistent", "u.ts"]).events ∧
    (executeTypescript TsEnv.allOk ⟨1, 0, "ok", ""⟩ "u" ["root"]
      ["mnt", "persistent", "u.ts"]).err = none :=
  c1_global_chdir_mutation ⟨1, 0, "ok", ""⟩ "u" ["root"]
    ["mnt", "persistent", "u.ts"] (by decide) rfl

/-- Environment in which everything succeeds except the workspace
removal. -/
def TsEnv.removeFails : TsEnv := ⟨true, true, true, true, true, true, true, true, false⟩

/-- C2 (evaluating the code at the failing inputs): the workspace
directory and the staged entry file are removed only on the fully
successful path. On timeout, executeTypescript returns with no removeAll
event (and no chdir back), and codeExecHandler returns with no
removeFile event; likewise on non-zero exit; on success both removals
happen, and a removal failure only adds a log event without changing
the returned result. -/
theorem c2_cleanup_only_on_success (b : ProcBehavior) (code u : String)
    (orig fp : FsPath) (d : PhaseDurations) :
    (tsTimeoutSeconds < b.duration →
      (executeTypescript TsEnv.allOk b u orig fp).err = some .timedOut ∧
      TsEvent.removeAll (mntPersistent ++ [u]) ∉
        (executeTypescript TsEnv.allOk b u orig fp).events ∧
      (codeExecHandler ⟨"typescript", code⟩ true true JsEnv.allOk TsEnv.allOk b u orig d).events =
        [.writeFile (mntPersistent ++ [u ++ ".ts"]), .execTs]) ∧
    (b.duration ≤ tsTimeoutSeconds → b.exitCode ≠ 0 →
      (executeTypescript TsEnv.allOk b u orig fp).err = some .runFailed ∧
      TsEvent.removeAll (mntPersistent ++ [u]) ∉
        (executeTypescript TsEnv.allOk b u orig fp).events) ∧
    (b.duration ≤ tsTimeoutSeconds → b.exitCode = 0 →
      TsEvent.removeAll (mntPersistent ++ [u]) ∈
        (executeTypescript TsEnv.allOk b u orig fp).events ∧
      HandlerEvent.removeFile (mntPersistent ++ [u ++ ".ts"]) ∈
        (codeExecHandler ⟨"typescript", code⟩ true true JsEnv.allOk TsEnv.allOk b u orig d).events ∧
      (executeTypescript TsEnv.removeFails b u orig fp).err =
        (executeTypescript TsEnv.allOk b u orig fp).err ∧
      (executeTypescript TsEnv.removeFails b u orig fp).stdout =
        (executeTypescript TsEnv.allOk b u orig fp).stdout ∧
      (executeTypescript TsEnv.removeFails b u orig fp).stderr =
        (executeTypescript TsEnv.allOk b u orig fp).stderr ∧
      (executeTypescript TsEnv.removeFails b u orig fp).events =
        (executeTypescript TsEnv.allOk b u orig fp).events ++ [TsEvent.logWarning]) := by
  refine ⟨?_, ?_, ?_⟩
  · intro hdur
    simp [executeTypescript, codeExecHandler, isLanguageSupported, supportedLanguages,
      LANGUAGE_EXTENSIONS, TsEnv.allOk, hdur]
  · intro hdur hexit
    have h1 : ¬ (tsTimeoutSeconds < b.duration) := Nat.not_lt.mpr hdur
    simp [executeTypescript, TsEnv.allOk, h1, hexit]
  · intro hdur hexit
    have h1 : ¬ (tsTimeoutSeconds < b.duration) := Nat.not_lt.mpr hdur
    simp [executeTypescript, codeExecHandler, isLanguageSupported, supportedLanguages,
      LANGUAGE_EXTENSIONS, TsEnv.allOk, TsEnv.removeFails, h1, hexit]

/-- Witness for C2: a timed-out execution leaks the workspace, a
successful one removes it. -/
theorem c2_cleanup_only_on_success_witness :
    ((executeTypescript TsEnv.allOk ⟨31, 0, "", ""⟩ "u" ["root"]
        ["mnt", "persistent", "u.ts"]).err = some .timedOut ∧
      TsEvent.removeAll (mntPersistent ++ ["u"]) ∉
        (executeTypescript TsEnv.allOk ⟨31, 0, "", ""⟩ "u" ["root"]
          ["mnt", "persistent", "u.ts"]).events ∧
      (codeExecHandler ⟨"typescript", "x"⟩ true true JsEnv.allOk TsEnv.allOk
        ⟨31, 0, "", ""⟩ "u" ["root"] ⟨0, 0, 0⟩).events =
        [.writeFile (mntPersistent ++ ["u.ts"]), .execTs]) ∧
    TsEvent.removeAll (mntPersistent ++ ["u"]) ∈
      (executeTypescript TsEnv.allOk ⟨1, 0, "", ""⟩ "u" ["root"]
        ["mnt", "persistent", "u.ts"]).events :=
  ⟨(c2_cleanup_only_on_success ⟨31, 0, "", ""⟩ "x" "u" ["root"]
      ["mnt", "persistent", "u.ts"] ⟨0, 0, 0⟩).1 (by decide),
    ((c2_cleanup_only_on_success ⟨1, 0, "", ""⟩ "x" "u" ["root"]
      ["mnt", "persistent", "u.ts"] ⟨0, 0, 0⟩).2.2 (by decide) rfl).1⟩

/-- C3 (evaluating the code at the failing input): when the child exits
before the deadline with a non-zero status, handleJavaScriptExecution
returns empty stdout and stderr regardless of what the child wrote, and
codeExecHandler delivers a 500 response holding only the error text, so
the captured output is discarded rather than returned. -/
theorem c3_nonzero_exit_discards_output (b : ProcBehavior) (code u : String)
    (orig : FsPath) (d : PhaseDurations)
    (hdur : b.duration ≤ jsTimeoutSeconds) (hexit : b.exitCode ≠ 0) :
    handleJavaScriptExecution JsEnv.allOk b = ⟨"", "", some .exitError, false⟩ ∧
    codeExecHandler ⟨"javascript", code⟩ true true JsEnv.allOk TsEnv.allOk b u orig d =
      ⟨[.writeFile (mntPersistent ++ [u ++ ".js"]), .execJs],
        ⟨500, executionErrorBody (jsErrorMessage .exitError)⟩⟩ := by
  have h1 : ¬ (jsTimeoutSeconds < b.duration) := Nat.not_lt.mpr hdur
  have hjs : handleJavaScriptExecution JsEnv.allOk b = ⟨"", "", some .exitError, false⟩ := by
    simp [handleJavaScriptExecution, JsEnv.allOk, h1, hexit]
  refine ⟨hjs, ?_⟩
  simp [codeExecHandler, isLanguageSupported, supportedLanguages, LANGUAGE_EXTENSIONS, hjs]

/-- Witness for C3: a child that printed on both streams and exited with
status 1 has its output replaced by empty strings and its handler
response carries only the error body. -/
theorem c3_nonzero_exit_discards_output_witness :
    handleJavaScriptExecution JsEnv.allOk ⟨1, 1, "hi", "boom"⟩ =
      ⟨"", "", some .exitError, false⟩ ∧
    codeExecHandler ⟨"javascript", "x"⟩ true true JsEnv.allOk TsEnv.allOk
      ⟨1, 1, "hi", "boom"⟩ "u" ["root"] ⟨0, 0, 0⟩ =
      ⟨[.writeFile (mntPersistent ++ ["u.js"]), .execJs],
        ⟨500, executionErrorBody (jsErrorMessage .exitError)⟩⟩ :=
  c3_nonzero_exit_discards_output ⟨1, 1, "hi", "boom"⟩ "x" "u" ["root"] ⟨0, 0, 0⟩
    (by decide) (by decide)

/-- C4: the enforced deadline is the one written into the request
pipeline (30 seconds for TypeScript, 60 for JavaScript, two distinct
budgets, not one universal constant), and whenever the child would
outlive its pipeline budget the context cancellation kills it and the
executor returns the timeout error as the outcome. -/
theorem c4_per_pipeline_timeout (b : ProcBehavior) (env : TsEnv) (jenv : JsEnv)
    (u : String) (orig fp : FsPath)
    (henv : env.getwdOk = true ∧ env.chdirScratchOk = true ∧ env.mkdirOk = true ∧
      env.copyTemplateOk = true ∧ env.chdirWorkspaceOk = true ∧
      env.copyEntryOk = true ∧ env.startOk = true)
    (hjenv : jenv.stdoutPipeOk = true ∧ jenv.stderrPipeOk = true ∧
      jenv.startOk = true ∧ jenv.readStdoutOk = true ∧ jenv.readStderrOk = true) :
    tsTimeoutSeconds = 30 ∧ jsTimeoutSeconds = 60 ∧
    tsTimeoutSeconds ≠ jsTimeoutSeconds ∧
    (tsTimeoutSeconds < b.duration →
      (executeTypescript env b u orig fp).err = some .timedOut ∧
      (executeTypescript env b u orig fp).childKilled = true) ∧
    (jsTimeoutSeconds < b.duration →
      (handleJavaScriptExecution jenv b).err = some .timedOut ∧
      (handleJavaScriptExecution jenv b).childKilled = true) := by
  obtain ⟨e1, e2, e3, e4, e5, e6, e7⟩ := henv
  obtain ⟨j1, j2, j3, j4, j5⟩ := hjenv
  refine ⟨rfl, rfl, by decide, ?_, ?_⟩
  · intro hdur
    simp [executeTypescript, e1, e2, e3, e4, e5, e6, e7, hdur]
  · intro hdur
    simp [handleJavaScriptExecution, j1, j2, j3, j4, j5, hdur]

/-- Witness for C4 at a child that would run 61 seconds. -/
theorem c4_per_pipeline_timeout_witness :
    tsTimeoutSeconds = 30 ∧ jsTimeoutSeconds = 60 ∧
    tsTimeoutSeconds ≠ jsTimeoutSeconds ∧
    (tsTimeoutSeconds < 61 →
      (executeTypescript TsEnv.allOk ⟨61, 0, "", ""⟩ "u" ["root"]
        ["mnt", "persistent", "u.ts"]).err = some .timedOut ∧
      (executeTypescript TsEnv.allOk ⟨61, 0, "", ""⟩ "u" ["root"]
        ["mnt", "persistent", "u.ts"]).childKilled = true) ∧
    (jsTimeoutSeconds < 61 →
      (handleJavaScriptExecution JsEnv.allOk ⟨61, 0, "", ""⟩).err = some .timedOut ∧
      (handleJavaScriptExecution JsEnv.allOk ⟨61, 0, "", ""⟩).childKilled = true) :=
  c4_per_pipeline_timeout ⟨61, 0, "", ""⟩ TsEnv.allOk JsEnv.allOk "u" ["root"]
    ["mnt", "persistent", "u.ts"]
    ⟨rfl, rfl, rfl, rfl, rfl, rfl, rfl⟩ ⟨rfl, rfl, rfl, rfl, rfl⟩

/-- C5: a request whose language is not in the registered set is
rejected with the not-supported error and the handler performs no
filesystem or process effect at all: its event trace is empty. -/
theorem c5_unsupported_rejected_without_side_effects (req : CodeExecRequest)
    (writeOk removeOk : Bool) (jsEnv : JsEnv) (tsEnv : TsEnv) (b : ProcBehavior)
    (u : String) (orig : FsPath) (d : PhaseDurations)
    (h : isLanguageSupported req.language supportedLanguages = false) :
    codeExecHandler req writeOk removeOk jsEnv tsEnv b u orig d =
      ⟨[], ⟨400, notSupportedBody⟩⟩ := by
  simp [codeExecHandler, h]

/-- Witness for C5 at the unsupported language identifier python. -/
theorem c5_unsupported_rejected_without_side_effects_witness :
    isLanguageSupported "python" supportedLanguages = false ∧
    codeExecHandler ⟨"python", "print(1)"⟩ true true JsEnv.allOk TsEnv.allOk
      ⟨1, 0, "", ""⟩ "u" ["root"] ⟨0, 0, 0⟩ = ⟨[], ⟨400, notSupportedBody⟩⟩ :=
  ⟨by decide,
    c5_unsupported_rejected_without_side_effects ⟨"python", "print(1)"⟩ true true
      JsEnv.allOk TsEnv.allOk ⟨1, 0, "", ""⟩ "u" ["root"] ⟨0, 0, 0⟩ (by decide)⟩

/-- C6 counterexample: with staging taking 5, the supervised run 10 and
removal 3 time units, the reported execTime is 18, not the 10 units of
the supervised run alone, refuting the claim that the reported duration
measures only the supervised process run. -/
theorem c6_elapsed_counterexample :
    (codeExecHandler ⟨"javascript", "x"⟩ true true JsEnv.allOk TsEnv.allOk
      ⟨1, 0, "ok", ""⟩ "u" ["root"] ⟨5, 10, 3⟩).resp.body =
        buildSuccessBody "ok" "" (toString (5 + 10 + 3)) ∧
    (codeExecHandler ⟨"javascript", "x"⟩ true true JsEnv.allOk TsEnv.allOk
      ⟨1, 0, "ok", ""⟩ "u" ["root"] ⟨5, 10, 3⟩).resp.body ≠
        buildSuccessBody "ok" "" (toString 10) := by decide

/-- C6 as amended: on every successful execution the reported execTime
is the sum of the entry-file staging duration, the execution duration
(which for TypeScript contains the whole workspace lifecycle) and the
staged-file removal duration, because time.Now is read before
os.WriteFile and time.Since after os.Remove. -/
theorem c6_elapsed_spans_staging_and_removal (b : ProcBehavior) (code u : String)
    (orig : FsPath) (d : PhaseDurations) (removeOk : Bool)
    (hdur : b.duration ≤ tsTimeoutSeconds) (hexit : b.exitCode = 0) :
    (codeExecHandler ⟨"javascript", code⟩ true removeOk JsEnv.allOk TsEnv.allOk
      b u orig d).resp =
      ⟨200, buildSuccessBody b.stdout b.stderr (toString (d.write + d.exec + d.remove))⟩ ∧
    (codeExecHandler ⟨"typescript", code⟩ true removeOk JsEnv.allOk TsEnv.allOk
      b u orig d).resp =
      ⟨200, buildSuccessBody b.stdout b.stderr (toString (d.write + d.exec + d.remove))⟩ := by
  have hdur2 : ¬ (jsTimeoutSeconds < b.duration) := by
    simp only [tsTimeoutSeconds] at hdur
    simp only [jsTimeoutSeconds]
    omega
  have hdur3 : ¬ (tsTimeoutSeconds < b.duration) := Nat.not_lt.mpr hdur
  constructor
  · have hjs : handleJavaScriptExecution JsEnv.allOk b = ⟨b.stdout, b.stderr, none, false⟩ := by
      simp [handleJavaScriptExecution, JsEnv.allOk, hdur2, hexit]
    cases removeOk <;>
      simp [codeExecHandler, isLanguageSupported, supportedLanguages,
        LANGUAGE_EXTENSIONS, hjs]
  · cases removeOk <;>
      simp [codeExecHandler, executeTypescript, isLanguageSupported,
        supportedLanguages, LANGUAGE_EXTENSIONS, TsEnv.allOk, hdur3, hexit]

/-- Witness for C6 as amended, at concrete durations 5, 10 and 3. -/
theorem c6_elapsed_spans_staging_and_removal_witness :
    (codeExecHandler ⟨"javascript", "x"⟩ true true JsEnv.allOk TsEnv.allOk
      ⟨1, 0, "ok", "w"⟩ "u" ["root"] ⟨5, 10, 3⟩).resp =
      ⟨200, buildSuccessBody "ok" "w" (toString (5 + 10 + 3))⟩ ∧
    (codeExecHandler ⟨"typescript", "x"⟩ true true JsEnv.allOk TsEnv.allOk
      ⟨1, 0, "ok", "w"⟩ "u" ["root"] ⟨5, 10, 3⟩).resp =
      ⟨200, buildSuccessBody "ok" "w" (toString (5 + 10 + 3))⟩ :=
  c6_elapsed_spans_staging_and_removal ⟨1, 0, "ok", "w"⟩ "x" "u" ["root"]
    ⟨5, 10, 3⟩ true (by decide) rfl

/-- C10: whenever the JavaScript deadline fires, the budget actually
enforced is the 60 seconds handed to context.WithTimeout, while the
error delivered states the command timed out after 10 seconds; the
figure stated in the message never matches the enforced budget. -/
theorem c10_timeout_message_mismatch (jenv : JsEnv) (b : ProcBehavior)
    (hjenv : jenv.stdoutPipeOk = true ∧ jenv.stderrPipeOk = true ∧
      jenv.startOk = true ∧ jenv.readStdoutOk = true ∧ jenv.readStderrOk = true)
    (hdur : jsTimeoutSeconds < b.duration) :
    (handleJavaScriptExecution jenv b).err = some .timedOut ∧
    jsErrorMessage .timedOut = "command timed out after 10 seconds" ∧
    firstNat (jsErrorMessage .timedOut) = some 10 ∧
    jsTimeoutSeconds = 60 ∧
    firstNat (jsErrorMessage .timedOut) ≠ some jsTimeoutSeconds := by
  obtain ⟨j1, j2, j3, j4, j5⟩ := hjenv
  refine ⟨?_, rfl, by decide, rfl, by decide⟩
  simp [handleJavaScriptExecution, j1, j2, j3, j4, j5, hdur]

/-- Witness for C10 at a child that would run 61 seconds. -/
theorem c10_timeout_message_mismatch_witness :
    (handleJavaScriptExecution JsEnv.allOk ⟨61, 0, "", ""⟩).err = some .timedOut ∧
    jsErrorMessage .timedOut = "command timed out after 10 seconds" ∧
    firstNat (jsErrorMessage .timedOut) = some 10 ∧
    jsTimeoutSeconds = 60 ∧
    firstNat (jsErrorMessage .timedOut) ≠ some jsTimeoutSeconds :=
  c10_timeout_message_mismatch JsEnv.allOk ⟨61, 0, "", ""⟩
    ⟨rfl, rfl, rfl, rfl, rfl⟩ (by decide)

end Octree
